import Mathlib

/-!
Verification of the disk-monitor utility (sources: `disk_monitor.py` and
`disk_monitor_gui.py`) against its natural-language specification.

Modelling conventions (shallow embedding of the Python sources):

* Python integers are unbounded, so byte counters are `ℤ` (psutil reports
  non-negative values, but the code computes `read - prev[0]` before clamping,
  which is a genuine integer subtraction).
* The worker accumulates totals in Python floats initialised to `0.0` and
  incremented by integer deltas; presentation divides by `1024 * 1024`.  All
  values reachable in practice are dyadic rationals represented exactly by
  floats, so both are modelled exactly in `ℚ` (totals stay integral, the MB
  conversion is an exact division by `2 ^ 20`).
* Python `dict`s are insertion-ordered maps with unique keys; they are
  modelled as association lists (`alistLookup` / `alistInsert`, where
  inserting an existing key updates it in place and a new key is appended),
  which is exactly the iteration behaviour `totals.items()` exhibits.
* `list.sort(key=..., reverse=True)` is a stable descending sort; it is
  modelled by a stable insertion sort (`sortRowsDesc`): an element is placed
  after every earlier element whose key is `≥` its own.
* Real time (`time.time()`, `time.sleep`) is abstracted: the environment
  supplies the wall-clock value observed at each loop-boundary check
  (`times : ℕ → ℚ`), the stop-event value observed at each boundary check
  (`stopAt : ℕ → Bool`), and the process table enumerated at each tick
  (`ticks`).  A failing `proc.io_counters()` call (psutil `NoSuchProcess` or
  `AccessDenied`) is a reading whose `counters` field is `none`.
-/

namespace DiskMonitor

/-- Lookup in an insertion-ordered association list (Python `dict` access). -/
def alistLookup {α β : Type} [DecidableEq α] (k : α) : List (α × β) → Option β
  | [] => none
  | e :: t => if e.1 = k then some e.2 else alistLookup k t

/-- Update/insert in an insertion-ordered association list (Python `dict`
assignment: an existing key is updated in place, a new key is appended). -/
def alistInsert {α β : Type} [DecidableEq α] (k : α) (v : β) : List (α × β) → List (α × β)
  | [] => [(k, v)]
  | e :: t => if e.1 = k then (k, v) :: t else e :: alistInsert k v t

/-- One `proc.io_counters()` result: cumulative lifetime bytes read/written. -/
structure IOCounters where
  read_bytes : ℤ
  write_bytes : ℤ
deriving DecidableEq

/-- One process as seen by `psutil.process_iter(['pid', 'name'])` in a tick:
pid, display name, and the outcome of reading its counters (`none` models the
`psutil.NoSuchProcess` / `psutil.AccessDenied` exceptions caught by the code). -/
structure ProcReading where
  pid : ℕ
  name : String
  counters : Option IOCounters
deriving DecidableEq

/-- Mutable state of `DiskMonitorWorker.run` (file `disk_monitor_gui.py`):
`prev_io: Dict[int, Tuple[int, int]]` keyed by pid, and
`totals: Dict[Tuple[int, str], ...]` keyed by `(pid, name)`. -/
structure WorkerState where
  prevCounters : List (ℕ × (ℤ × ℤ))
  totals : List ((ℕ × String) × (ℤ × ℤ))
deriving DecidableEq

def initWorkerState : WorkerState := ⟨[], []⟩

/-- Body of the `for proc in psutil.process_iter(...)` loop of
`DiskMonitorWorker.run` (`disk_monitor_gui.py` lines 62-85), for a single
enumerated process:

* a failed counter read (`except ... : continue`) leaves the state unchanged;
* a pid with no prior snapshot stores its baseline and contributes nothing;
* otherwise `delta = max(0, current - prior)` per counter is added to the
  running totals under the key `(pid, name)` and the snapshot is replaced. -/
def processReading (s : WorkerState) (r : ProcReading) : WorkerState :=
  match r.counters with
  | none => s
  | some c =>
    match alistLookup r.pid s.prevCounters with
    | none =>
      { s with prevCounters := alistInsert r.pid (c.read_bytes, c.write_bytes) s.prevCounters }
    | some prev =>
      let delta_read := max 0 (c.read_bytes - prev.1)
      let delta_write := max 0 (c.write_bytes - prev.2)
      let key := (r.pid, r.name)
      let cur := (alistLookup key s.totals).getD (0, 0)
      { prevCounters := alistInsert r.pid (c.read_bytes, c.write_bytes) s.prevCounters
        totals := alistInsert key (cur.1 + delta_read, cur.2 + delta_write) s.totals }

/-- One full tick of the worker: fold `processReading` over the process table
enumerated for that tick. -/
def observeTick (s : WorkerState) (t : List ProcReading) : WorkerState :=
  t.foldl processReading s

/-- The worker's sampling loop, `while time.time() < end_time and not
self.stopped(): <one tick>`.  `times k` is the wall clock observed at the
`k`-th boundary check and `stopAt k` the stop-event value observed there; the
tick body contains no further check, so a tick, once entered, runs to
completion. -/
def runLoop (stopAt : ℕ → Bool) (times : ℕ → ℚ) (endTime : ℚ) :
    ℕ → List (List ProcReading) → WorkerState → WorkerState
  | _, [], s => s
  | k, t :: rest, s =>
    if times k < endTime ∧ stopAt k = false then
      runLoop stopAt times endTime (k + 1) rest (observeTick s t)
    else s

/-- The configuration captured by `DiskMonitorWorker.__init__`. -/
structure WorkerConfig where
  duration : ℤ
  interval : ℚ
  top_n : ℤ
deriving DecidableEq

/-- The aggregated mapping the worker puts on its output queue. -/
abbrev SampleResult := List ((ℕ × String) × (ℤ × ℤ))

/-- Final hand-off of `DiskMonitorWorker.run`: `totals` is copied entry by
entry into a fresh dict `out` and enqueued; for a dict (unique keys,
insertion order) that copy is the identity. -/
def workerResult (s : WorkerState) : SampleResult := s.totals

/-- `DiskMonitorWorker.run` end to end: loop from boundary 0 starting at the
empty state, then enqueue the aggregated result.  `end_time = time.time() +
self.duration` at entry is `startTime + cfg.duration`.  Note that
`cfg.top_n`, although stored by `__init__`, is never read here. -/
def workerRun (cfg : WorkerConfig) (startTime : ℚ) (times : ℕ → ℚ) (stopAt : ℕ → Bool)
    (ticks : List (List ProcReading)) : SampleResult :=
  workerResult (runLoop stopAt times (startTime + (cfg.duration : ℚ)) 0 ticks initWorkerState)

/-- The running totals row for identity `(p, n)`, defaulting to zero when the
identity has no accumulated record yet. -/
def totalsAt (s : WorkerState) (p : ℕ) (n : String) : ℤ × ℤ :=
  (alistLookup (p, n) s.totals).getD (0, 0)

/-- One display row built by `DiskMonitorGUI._periodic_poll` from a result
entry: byte totals are converted to MB (exact here, see the header note). -/
structure Row where
  pid : ℕ
  name : String
  read_mb : ℚ
  write_mb : ℚ
  total_mb : ℚ
deriving DecidableEq

def toRow (e : (ℕ × String) × (ℤ × ℤ)) : Row :=
  let read_mb : ℚ := (e.2.1 : ℚ) / (1024 * 1024)
  let write_mb : ℚ := (e.2.2 : ℚ) / (1024 * 1024)
  { pid := e.1.1, name := e.1.2, read_mb := read_mb, write_mb := write_mb
    total_mb := read_mb + write_mb }

/-- Stable descending insertion: `r` is placed after every element with
`total_mb ≥ r.total_mb`.  Folding it from the right models Python's stable
`rows.sort(key=lambda r: r[4], reverse=True)`. -/
def insertRowDesc (r : Row) : List Row → List Row
  | [] => [r]
  | x :: xs => if r.total_mb < x.total_mb then x :: insertRowDesc r xs else r :: x :: xs

def sortRowsDesc (l : List Row) : List Row := l.foldr insertRowDesc []

/-- The rows `_periodic_poll` displays: convert the result mapping in its
iteration order, sort descending by `total_mb`, and truncate with
`rows[:top_n]` where `top_n = self.top_var.get()` is read at display time. -/
def displayedRows (res : SampleResult) (tn : ℕ) : List Row :=
  (sortRowsDesc (res.map toRow)).take tn

/-- The summary computation of `_periodic_poll` as an explicit state
transition: it returns the displayed rows and the (unmodified) result mapping
it read them from. -/
def finalizeStep (res : SampleResult) (tn : ℕ) : List Row × SampleResult :=
  (displayedRows res tn, res)

/-- The three Tk entry variables read by `DiskMonitorGUI.start_monitor`. -/
structure GUIConfigVars where
  duration_var : ℤ
  interval_var : ℚ
  top_var : ℤ
deriving DecidableEq

/-- Controller-visible state of the GUI: whether a worker thread is alive,
the worker's stop event, the captured config, the worker's accumulated
totals, the pending (queued, not yet displayed) result, and the status line. -/
structure GUIState where
  workerAlive : Bool
  stopRequested : Bool
  workerCfg : Option WorkerConfig
  accumulated : WorkerState
  pendingResult : Option SampleResult
  statusText : String
deriving DecidableEq

inductive StartOutcome where
  | alreadyInProgress
  | started (cfg : WorkerConfig)
deriving DecidableEq

/-- The clamping `start_monitor` applies before creating the worker:
`duration = max(1, int(...))`, `interval = max(0.1, float(...))`,
`top_n = max(1, int(...))`. -/
def effectiveConfig (v : GUIConfigVars) : WorkerConfig :=
  { duration := max 1 v.duration_var
    interval := max (1 / 10 : ℚ) v.interval_var
    top_n := max 1 v.top_var }

/-- The fresh state `start_monitor` creates: new worker thread, fresh result
queue, cleared table. -/
def startedState (cfg : WorkerConfig) : GUIState :=
  { workerAlive := true, stopRequested := false, workerCfg := some cfg
    accumulated := initWorkerState, pendingResult := none
    statusText := "Monitoring..." }

/-- `DiskMonitorGUI.start_monitor`: a live worker makes it show
"Monitoring already in progress." and return without touching anything;
otherwise it clamps the entry values and starts a fresh run. -/
def start_monitor (s : GUIState) (v : GUIConfigVars) : StartOutcome × GUIState :=
  if s.workerAlive then (StartOutcome.alreadyInProgress, s)
  else (StartOutcome.started (effectiveConfig v), startedState (effectiveConfig v))

/-- `DiskMonitorGUI.stop_monitor`: with a live worker it sets the worker's
stop event and the status line; with no live worker it does nothing. -/
def stop_monitor (s : GUIState) : GUIState :=
  if s.workerAlive then { s with stopRequested := true, statusText := "Stopping..." } else s

/-- Accumulator of the console script `disk_monitor.py`: the module-level
`process_io` dict is keyed by the display *name* alone. -/
abbrev CumulMap := List (String × (ℤ × ℤ))

/-- Body of the enumeration loop of `monitor_disk_activity`
(`disk_monitor.py` lines 15-26): raw cumulative counters are added to
`process_io[name]`; a failed read is skipped with `continue`. -/
def cumulProcessReading (m : CumulMap) (r : ProcReading) : CumulMap :=
  match r.counters with
  | none => m
  | some c =>
    let cur := (alistLookup r.name m).getD (0, 0)
    alistInsert r.name (cur.1 + c.read_bytes, cur.2 + c.write_bytes) m

def cumulObserveTick (m : CumulMap) (t : List ProcReading) : CumulMap :=
  t.foldl cumulProcessReading m

/-- The accumulation phase of `monitor_disk_activity` over the ticks the
duration window admits. -/
def monitor_disk_activity (ticks : List (List ProcReading)) : CumulMap :=
  ticks.foldl cumulObserveTick []

/-! ### Association-list lemmas -/

theorem alistLookup_insert_self {α β : Type} [DecidableEq α] (k : α) (v : β)
    (m : List (α × β)) : alistLookup k (alistInsert k v m) = some v := by
  induction m with
  | nil => simp [alistInsert, alistLookup]
  | cons e t ih =>
    by_cases h : e.1 = k
    · simp [alistInsert, h, alistLookup]
    · simp [alistInsert, h, alistLookup, ih]

theorem alistLookup_insert_ne {α β : Type} [DecidableEq α] {k k' : α} (v : β)
    (m : List (α × β)) (h : k' ≠ k) :
    alistLookup k (alistInsert k' v m) = alistLookup k m := by
  induction m with
  | nil => simp [alistInsert, alistLookup, h]
  | cons e t ih =>
    by_cases he : e.1 = k'
    · have h1 : e.1 ≠ k := by rw [he]; exact h
      simp [alistInsert, he, alistLookup, h, h1]
    · simp [alistInsert, he, alistLookup, ih]

/-! ### Stable descending sort lemmas -/

theorem length_insertRowDesc (r : Row) (l : List Row) :
    (insertRowDesc r l).length = l.length + 1 := by
  induction l with
  | nil => rfl
  | cons x xs ih =>
    by_cases h : r.total_mb < x.total_mb
    · simp [insertRowDesc, h, ih]
    · simp [insertRowDesc, h]

theorem length_sortRowsDesc (l : List Row) : (sortRowsDesc l).length = l.length := by
  induction l with
  | nil => rfl
  | cons x xs ih =>
    show (insertRowDesc x (sortRowsDesc xs)).length = xs.length + 1
    rw [length_insertRowDesc, ih]

theorem mem_insertRowDesc {b r : Row} {l : List Row} (h : b ∈ insertRowDesc r l) :
    b = r ∨ b ∈ l := by
  induction l with
  | nil =>
    simp only [insertRowDesc, List.mem_singleton] at h
    exact Or.inl h
  | cons x xs ih =>
    by_cases hc : r.total_mb < x.total_mb
    · simp only [insertRowDesc, if_pos hc, List.mem_cons] at h
      rcases h with h | h
      · exact Or.inr (h ▸ List.mem_cons_self x xs)
      · rcases ih h with h1 | h1
        · exact Or.inl h1
        · exact Or.inr (List.mem_cons_of_mem x h1)
    · simp only [insertRowDesc, if_neg hc, List.mem_cons] at h
      rcases h with h | h | h
      · exact Or.inl h
      · exact Or.inr (h ▸ List.mem_cons_self x xs)
      · exact Or.inr (List.mem_cons_of_mem x h)

theorem pairwise_insertRowDesc (r : Row) (l : List Row)
    (h : List.Pairwise (fun a b => b.total_mb ≤ a.total_mb) l) :
    List.Pairwise (fun a b => b.total_mb ≤ a.total_mb) (insertRowDesc r l) := by
  induction l with
  | nil => simp [insertRowDesc]
  | cons x xs ih =>
    rcases List.pairwise_cons.mp h with ⟨hx, hxs⟩
    by_cases hc : r.total_mb < x.total_mb
    · rw [insertRowDesc, if_pos hc]
      refine List.pairwise_cons.mpr ⟨?_, ih hxs⟩
      intro b hb
      rcases mem_insertRowDesc hb with hb | hb
      · exact hb ▸ le_of_lt hc
      · exact hx b hb
    · rw [insertRowDesc, if_neg hc]
      refine List.pairwise_cons.mpr ⟨?_, h⟩
      intro b hb
      rcases List.mem_cons.mp hb with hb | hb
      · exact hb ▸ not_lt.mp hc
      · exact le_trans (hx b hb) (not_lt.mp hc)

theorem pairwise_sortRowsDesc (l : List Row) :
    List.Pairwise (fun a b => b.total_mb ≤ a.total_mb) (sortRowsDesc l) := by
  induction l with
  | nil => simp [sortRowsDesc]
  | cons x xs ih => exact pairwise_insertRowDesc x (sortRowsDesc xs) ih

/-- Inserting a row whose total equals `q` puts it in front of every row with
total `q` already present: the rows it is placed behind all have a strictly
greater total. -/
theorem filter_insertRowDesc_eq (r : Row) (l : List Row) (q : ℚ) (hr : r.total_mb = q) :
    (insertRowDesc r l).filter (fun x => x.total_mb == q)
      = r :: l.filter (fun x => x.total_mb == q) := by
  have hrq : (r.total_mb == q) = true := beq_iff_eq.mpr hr
  induction l with
  | nil => simp [insertRowDesc, hrq]
  | cons x xs ih =>
    by_cases hc : r.total_mb < x.total_mb
    · have hx : (x.total_mb == q) = false := by
        rw [beq_eq_false_iff_ne]
        intro hxq
        rw [hr] at hc
        rw [hxq] at hc
        exact lt_irrefl q hc
      rw [insertRowDesc, if_pos hc, List.filter_cons, List.filter_cons]
      simp only [hx, ih]
      rfl
    · rw [insertRowDesc, if_neg hc, List.filter_cons]
      simp only [hrq, if_true]

/-- Inserting a row whose total differs from `q` leaves the rows with total
`q` and their order unchanged. -/
theorem filter_insertRowDesc_ne (r : Row) (l : List Row) (q : ℚ) (hr : r.total_mb ≠ q) :
    (insertRowDesc r l).filter (fun x => x.total_mb == q)
      = l.filter (fun x => x.total_mb == q) := by
  have hrq : (r.total_mb == q) = false := beq_eq_false_iff_ne.mpr hr
  induction l with
  | nil => simp [insertRowDesc, hrq]
  | cons x xs ih =>
    by_cases hc : r.total_mb < x.total_mb
    · rw [insertRowDesc, if_pos hc, List.filter_cons, List.filter_cons, ih]
    · rw [insertRowDesc, if_neg hc, List.filter_cons]
      simp only [hrq]
      rfl

/-- Stability of the descending sort: for every total value `q`, the rows
with total `q` appear in the sorted output exactly in their input order. -/
theorem filter_sortRowsDesc (l : List Row) (q : ℚ) :
    (sortRowsDesc l).filter (fun x => x.total_mb == q)
      = l.filter (fun x => x.total_mb == q) := by
  induction l with
  | nil => rfl
  | cons x xs ih =>
    show (insertRowDesc x (sortRowsDesc xs)).filter (fun x => x.total_mb == q) = _
    by_cases hx : x.total_mb = q
    · rw [filter_insertRowDesc_eq x _ q hx, ih, List.filter_cons]
      simp [hx]
    · rw [filter_insertRowDesc_ne x _ q hx, ih, List.filter_cons]
      simp [hx]

/-! ### Locality of the worker's accumulation in the pid

`EquivAt p` relates two worker states that agree on everything the worker can
ever read or write about pid `p`: the stored snapshot for `p` and the running
totals of every identity `(p, n)`. -/

def EquivAt (p : ℕ) (s s' : WorkerState) : Prop :=
  alistLookup p s.prevCounters = alistLookup p s'.prevCounters ∧
  ∀ n : String, alistLookup (p, n) s.totals = alistLookup (p, n) s'.totals

theorem equivAt_refl (p : ℕ) (s : WorkerState) : EquivAt p s s := ⟨rfl, fun _ => rfl⟩

theorem equivAt_trans {p : ℕ} {s t u : WorkerState} (h1 : EquivAt p s t)
    (h2 : EquivAt p t u) : EquivAt p s u :=
  ⟨h1.1.trans h2.1, fun n => (h1.2 n).trans (h2.2 n)⟩

theorem equivAt_processReading_ne {p : ℕ} (s : WorkerState) (r : ProcReading)
    (h : r.pid ≠ p) : EquivAt p (processReading s r) s := by
  rcases r with ⟨rp, rn, rc⟩
  simp only at h
  cases rc with
  | none => exact equivAt_refl p s
  | some c =>
    cases hl : alistLookup rp s.prevCounters with
    | none =>
      refine ⟨?_, fun n => ?_⟩
      · simp only [processReading, hl]
        exact alistLookup_insert_ne _ _ h
      · simp only [processReading, hl]
    | some prev =>
      have hkey : ∀ n : String, ((rp, rn) : ℕ × String) ≠ (p, n) := by
        intro n hn
        exact h (congrArg Prod.fst hn)
      refine ⟨?_, fun n => ?_⟩
      · simp only [processReading, hl]
        exact alistLookup_insert_ne _ _ h
      · simp only [processReading, hl]
        exact alistLookup_insert_ne _ _ (hkey n)

theorem equivAt_processReading_eq {p : ℕ} {s s' : WorkerState} (r : ProcReading)
    (hp : r.pid = p) (h : EquivAt p s s') :
    EquivAt p (processReading s r) (processReading s' r) := by
  rcases r with ⟨rp, rn, rc⟩
  simp only at hp
  subst hp
  cases rc with
  | none => exact h
  | some c =>
    cases hl : alistLookup rp s.prevCounters with
    | none =>
      have hl' : alistLookup rp s'.prevCounters = none := h.1 ▸ hl
      refine ⟨?_, fun n => ?_⟩
      · simp only [processReading, hl, hl']
        rw [alistLookup_insert_self, alistLookup_insert_self]
      · simp only [processReading, hl, hl']
        exact h.2 n
    | some prev =>
      have hl' : alistLookup rp s'.prevCounters = some prev := h.1 ▸ hl
      have hcur : alistLookup (rp, rn) s.totals = alistLookup (rp, rn) s'.totals := h.2 rn
      refine ⟨?_, fun n => ?_⟩
      · simp only [processReading, hl, hl']
        rw [alistLookup_insert_self, alistLookup_insert_self]
      · simp only [processReading, hl, hl']
        by_cases hn : n = rn
        · subst hn
          rw [alistLookup_insert_self, alistLookup_insert_self, hcur]
        · have hkey : ((rp, rn) : ℕ × String) ≠ (rp, n) := by
            intro hcontra
            exact hn (congrArg Prod.snd hcontra).symm
          rw [alistLookup_insert_ne _ _ hkey, alistLookup_insert_ne _ _ hkey]
          exact h.2 n

theorem equivAt_observeTick (p : ℕ) (t : List ProcReading) :
    ∀ {s s' : WorkerState}, EquivAt p s s' →
      EquivAt p (observeTick s t) (observeTick s' (t.filter (fun r => r.pid == p))) := by
  induction t with
  | nil =>
    intro s s' h
    simpa [observeTick] using h
  | cons r rt ih =>
    intro s s' h
    by_cases hp : r.pid = p
    · have hf : List.filter (fun r => r.pid == p) (r :: rt)
          = r :: List.filter (fun r => r.pid == p) rt := by
        simp [List.filter_cons, hp]
      rw [hf]
      show EquivAt p (observeTick (processReading s r) rt)
        (observeTick (processReading s' r) (rt.filter (fun r => r.pid == p)))
      exact ih (equivAt_processReading_eq r hp h)
    · have hf : List.filter (fun r => r.pid == p) (r :: rt)
          = List.filter (fun r => r.pid == p) rt := by
        simp [List.filter_cons, hp]
      rw [hf]
      show EquivAt p (observeTick (processReading s r) rt)
        (observeTick s' (rt.filter (fun r => r.pid == p)))
      exact ih (equivAt_trans (equivAt_processReading_ne s r hp) h)

theorem equivAt_runLoop (p : ℕ) (stopAt : ℕ → Bool) (times : ℕ → ℚ) (endT : ℚ)
    (ticks : List (List ProcReading)) :
    ∀ (k : ℕ) {s s' : WorkerState}, EquivAt p s s' →
      EquivAt p (runLoop stopAt times endT k ticks s)
        (runLoop stopAt times endT k
          (ticks.map (fun t => t.filter (fun r => r.pid == p))) s') := by
  induction ticks with
  | nil =>
    intro k s s' h
    simpa [runLoop] using h
  | cons t rest ih =>
    intro k s s' h
    simp only [List.map_cons]
    by_cases hc : times k < endT ∧ stopAt k = false
    · rw [runLoop, runLoop, if_pos hc, if_pos hc]
      exact ih (k + 1) (equivAt_observeTick p t h)
    · rw [runLoop, runLoop, if_neg hc, if_neg hc]
      exact h

/-! ### Concrete fixtures used by the claim theorems -/

def cfgEx : WorkerConfig := ⟨30, 1, 15⟩

def guiIdle : GUIState := ⟨false, false, none, initWorkerState, none, "Idle"⟩

def guiRunning : GUIState := ⟨true, false, some cfgEx, initWorkerState, none, "Monitoring..."⟩

def c1Ticks : List (List ProcReading) :=
  [[⟨1, "A", some ⟨100, 50⟩⟩], [⟨1, "A", some ⟨150, 80⟩⟩], [⟨1, "A", some ⟨140, 90⟩⟩]]

def c1PrevState : WorkerState := ⟨[(1, (100, 50))], []⟩

def c2SingleTick : List (List ProcReading) := [[⟨1, "A", some ⟨100, 50⟩⟩]]

/-! ### Claim theorems -/

/-- C1: in delta mode, for a pid with a stored prior snapshot `(pr, pw)`, a new
snapshot `(cr, cw)` adds exactly `cr - pr` (resp. `cw - pw`) to the identity's
running read (resp. write) total when the counter did not decrease, and adds
exactly zero (never a negative amount) when it decreased; on the tick sequence
read 100/write 50, read 150/write 80, read 140/write 90 for one pid the
accumulated totals are read 50 and write 40, i.e. 90 total bytes. -/
theorem c1_delta_exact (s : WorkerState) (p : ℕ) (n : String) (pr pw cr cw : ℤ)
    (hprev : alistLookup p s.prevCounters = some (pr, pw)) :
    (pr ≤ cr →
      (totalsAt (processReading s ⟨p, n, some ⟨cr, cw⟩⟩) p n).1 = (totalsAt s p n).1 + (cr - pr))
  ∧ (cr < pr →
      (totalsAt (processReading s ⟨p, n, some ⟨cr, cw⟩⟩) p n).1 = (totalsAt s p n).1)
  ∧ (pw ≤ cw →
      (totalsAt (processReading s ⟨p, n, some ⟨cr, cw⟩⟩) p n).2 = (totalsAt s p n).2 + (cw - pw))
  ∧ (cw < pw →
      (totalsAt (processReading s ⟨p, n, some ⟨cr, cw⟩⟩) p n).2 = (totalsAt s p n).2)
  ∧ alistLookup (1, "A") (workerRun cfgEx 0 (fun _ => 0) (fun _ => false) c1Ticks)
      = some (50, 40)
  ∧ (50 : ℤ) + 40 = 90 := by
  have hnew : totalsAt (processReading s ⟨p, n, some ⟨cr, cw⟩⟩) p n
      = ((totalsAt s p n).1 + max 0 (cr - pr), (totalsAt s p n).2 + max 0 (cw - pw)) := by
    simp only [totalsAt, processReading, hprev, alistLookup_insert_self, Option.getD_some]
  refine ⟨?_, ?_, ?_, ?_, ?_, by norm_num⟩
  · intro hle
    rw [hnew, max_eq_right (sub_nonneg.mpr hle)]
  · intro hlt
    rw [hnew, max_eq_left (sub_nonpos.mpr (le_of_lt hlt))]
    simp
  · intro hle
    rw [hnew, max_eq_right (sub_nonneg.mpr hle)]
  · intro hlt
    rw [hnew, max_eq_left (sub_nonpos.mpr (le_of_lt hlt))]
    simp
  · norm_num [workerRun, runLoop, observeTick, processReading, alistLookup, alistInsert,
      workerResult, initWorkerState, c1Ticks, cfgEx, max_def]

theorem c1_delta_exact_witness :
    alistLookup 1 c1PrevState.prevCounters = some (100, 50)
  ∧ (totalsAt (processReading c1PrevState ⟨1, "A", some ⟨150, 80⟩⟩) 1 "A").1
      = (totalsAt c1PrevState 1 "A").1 + (150 - 100)
  ∧ (totalsAt (processReading c1PrevState ⟨1, "A", some ⟨90, 80⟩⟩) 1 "A").1
      = (totalsAt c1PrevState 1 "A").1 :=
  ⟨rfl,
   (c1_delta_exact c1PrevState 1 "A" 100 50 150 80 rfl).1 (by decide),
   (c1_delta_exact c1PrevState 1 "A" 100 50 90 80 rfl).2.1 (by decide)⟩

/-- C2: in delta mode, the first observed snapshot of a pid contributes
nothing to the running totals: it only stores the baseline used by the next
delta; a run consisting of a single tick delivers an empty result. -/
theorem c2_first_snapshot_baseline (s : WorkerState) (p : ℕ) (n : String) (c : IOCounters)
    (hfirst : alistLookup p s.prevCounters = none) :
    (processReading s ⟨p, n, some c⟩).totals = s.totals
  ∧ alistLookup p (processReading s ⟨p, n, some c⟩).prevCounters
      = some (c.read_bytes, c.write_bytes)
  ∧ workerRun cfgEx 0 (fun _ => 0) (fun _ => false) c2SingleTick = [] := by
  refine ⟨?_, ?_, ?_⟩
  · simp only [processReading, hfirst]
  · simp only [processReading, hfirst]
    exact alistLookup_insert_self _ _ _
  · norm_num [workerRun, runLoop, observeTick, processReading, alistLookup, alistInsert,
      workerResult, initWorkerState, c2SingleTick, cfgEx]

theorem c2_first_snapshot_baseline_witness :
    alistLookup 7 initWorkerState.prevCounters = none
  ∧ ((processReading initWorkerState ⟨7, "X", some ⟨5, 6⟩⟩).totals = initWorkerState.totals
     ∧ alistLookup 7 (processReading initWorkerState ⟨7, "X", some ⟨5, 6⟩⟩).prevCounters
         = some (5, 6)
     ∧ workerRun cfgEx 0 (fun _ => 0) (fun _ => false) c2SingleTick = []) :=
  ⟨rfl, c2_first_snapshot_baseline initWorkerState 7 "X" ⟨5, 6⟩ rfl⟩

/-- C6: a process whose counter read fails (psutil `NoSuchProcess` or
`AccessDenied`, i.e. a `none` reading) is skipped for that tick: it changes
nothing in the worker's state, the remaining processes of the tick are
processed exactly as if it were absent, and the same handling holds for the
console script's accumulator; no exception escapes (the step functions are
total). -/
theorem c6_per_process_errors_skipped (s : WorkerState) (p : ℕ) (n : String)
    (pre post : List ProcReading) (m : CumulMap) :
    processReading s ⟨p, n, none⟩ = s
  ∧ observeTick s (pre ++ ⟨p, n, none⟩ :: post) = observeTick s (pre ++ post)
  ∧ cumulProcessReading m ⟨p, n, none⟩ = m := by
  refine ⟨rfl, ?_, rfl⟩
  simp [observeTick, List.foldl_append, List.foldl_cons, processReading]

/-- C8: the summary computation of `_periodic_poll` (convert, sort, truncate)
is a pure read: it hands back the result mapping unchanged, and running it a
second time on that preserved state yields the identical row list. -/
theorem c8_finalize_idempotent (res : SampleResult) (tn : ℕ) :
    (finalizeStep res tn).2 = res
  ∧ (finalizeStep (finalizeStep res tn).2 tn).1 = (finalizeStep res tn).1 :=
  ⟨rfl, rfl⟩

def c3Ticks : List (List ProcReading) :=
  [[⟨5, "b", some ⟨0, 0⟩⟩, ⟨3, "a", some ⟨0, 0⟩⟩],
   [⟨5, "b", some ⟨1048576, 0⟩⟩, ⟨3, "a", some ⟨1048576, 0⟩⟩]]

def c3Res : SampleResult := workerRun cfgEx 0 (fun _ => 0) (fun _ => false) c3Ticks

/-- Modelled from the spec's words, for comparison with the code's delivered
result: the observed identities of a run are the `(pid, name)` pairs
enumerated with a successful counter read in at least one tick. -/
def observedIdentities (ticks : List (List ProcReading)) : List (ℕ × String) :=
  ((ticks.flatten.filter (fun r => r.counters.isSome)).map (fun r => (r.pid, r.name))).dedup

def c3LenTicks : List (List ProcReading) := [[⟨9, "z", some ⟨4, 4⟩⟩]]

/-- C3 counterexample, falsifying both clauses of the claim as stated.
Tie-break: a run in which pids 5 and 3 tie at exactly 1 MB total each
displays pid 5 before pid 3 (the stable sort keeps first-accumulation
order), so ties between equal totals are NOT broken by ascending pid.
Length: a run whose single tick observes pid 9 once (successful read,
baseline only) has one observed identity but displays 0 rows, so the
summary's length is NOT `min top_n (number of observed identities)`. -/
theorem c3_counterexample :
    ((displayedRows c3Res 10).map (fun r => r.pid) = [5, 3]
     ∧ (displayedRows c3Res 10).map (fun r => r.total_mb) = [1, 1])
  ∧ (observedIdentities c3LenTicks).length = 1
  ∧ (displayedRows (workerRun cfgEx 0 (fun _ => 0) (fun _ => false) c3LenTicks) 10).length
      ≠ min 10 (observedIdentities c3LenTicks).length := by
  refine ⟨?_, by decide, ?_⟩
  · norm_num [displayedRows, sortRowsDesc, insertRowDesc, toRow, c3Res, workerRun, runLoop,
      observeTick, processReading, alistLookup, alistInsert, workerResult, initWorkerState,
      c3Ticks, cfgEx, max_def]
  · have h1 : (displayedRows (workerRun cfgEx 0 (fun _ => 0) (fun _ => false) c3LenTicks)
        10).length = 0 := by
      norm_num [displayedRows, sortRowsDesc, insertRowDesc, toRow, workerRun, runLoop,
        observeTick, processReading, alistLookup, alistInsert, workerResult, initWorkerState,
        c3LenTicks, cfgEx]
    have h2 : (observedIdentities c3LenTicks).length = 1 := by decide
    rw [h1, h2]
    decide

/-- C3 (amended): every produced summary is sorted in descending order of
total (megabyte totals, an exact rescaling of total_bytes); ties between
equal totals are not broken by ascending pid but left in the order the tied
rows occur in the delivered result mapping (first-accumulation order): for
every total value `q`, the rows of total `q` appear in the sorted rows
exactly in their result order; and the summary's length equals
`min top_n (number of identities with an accumulated record in the delivered
result)` — an identity whose only observation is its baseline has no
accumulated record, is absent from the result, and is not counted. -/
theorem c3_sorted_stable_truncated (res : SampleResult) (tn : ℕ) (q : ℚ) :
    List.Pairwise (fun a b => b.total_mb ≤ a.total_mb) (displayedRows res tn)
  ∧ (sortRowsDesc (res.map toRow)).filter (fun r => r.total_mb == q)
      = (res.map toRow).filter (fun r => r.total_mb == q)
  ∧ (displayedRows res tn).length = min tn res.length := by
  refine ⟨?_, filter_sortRowsDesc _ q, ?_⟩
  · exact List.Pairwise.sublist (List.take_sublist tn _) (pairwise_sortRowsDesc _)
  · rw [displayedRows, List.length_take, length_sortRowsDesc, List.length_map]

def c4Tick : List ProcReading := [⟨1, "chrome", some ⟨10, 5⟩⟩, ⟨2, "chrome", some ⟨20, 7⟩⟩]

/-- C4 counterexample: the console script `disk_monitor.py` keys its running
totals by display name alone, so one tick containing two simultaneously-live
processes with distinct pids 1 and 2 but the same name produces a single
merged row with the summed counters. -/
theorem c4_name_merge_counterexample :
    monitor_disk_activity [c4Tick] = [("chrome", (30, 12))] := by
  norm_num [monitor_disk_activity, cumulObserveTick, cumulProcessReading, alistLookup,
    alistInsert, c4Tick]

def c4WorkerTicks : List (List ProcReading) :=
  [[⟨1, "chrome", some ⟨0, 0⟩⟩, ⟨2, "chrome", some ⟨0, 0⟩⟩],
   [⟨1, "chrome", some ⟨10, 5⟩⟩, ⟨2, "chrome", some ⟨20, 7⟩⟩]]

/-- C4 (amended): the GUI worker accumulates under the composite key
`(pid, name)`, and its accumulation is local to the pid: the row stored for
`(p, n)` is unchanged when every reading with a different pid is removed from
every tick, so two simultaneously-live processes with distinct pids are never
merged; concretely, a run with same-named pids 1 and 2 delivers two separate
rows.  (The console script, by contrast, merges same-named pids: see the
counterexample.) -/
theorem c4_composite_key_no_merge (p : ℕ) (n : String) (cfg : WorkerConfig) (startT : ℚ)
    (times : ℕ → ℚ) (stopAt : ℕ → Bool) (ticks : List (List ProcReading)) :
    alistLookup (p, n) (workerRun cfg startT times stopAt ticks)
      = alistLookup (p, n)
          (workerRun cfg startT times stopAt
            (ticks.map (fun t => t.filter (fun r => r.pid == p))))
  ∧ (workerRun cfgEx 0 (fun _ => 0) (fun _ => false) c4WorkerTicks).map (fun e => e.1)
      = [(1, "chrome"), (2, "chrome")] := by
  constructor
  · exact (equivAt_runLoop p stopAt times (startT + (cfg.duration : ℚ)) ticks 0
      (equivAt_refl p initWorkerState)).2 n
  · norm_num [workerRun, runLoop, observeTick, processReading, alistLookup, alistInsert,
      workerResult, initWorkerState, c4WorkerTicks, cfgEx, max_def]

/-- C5 counterexample: `start_monitor` called while idle with
`duration_var = 0` and `top_var = 0` (both non-positive) does NOT fail with a
configuration error: it clamps both to 1 and starts the run (the worker is
alive afterwards). -/
theorem c5_clamp_counterexample :
    (start_monitor guiIdle ⟨0, 1, 0⟩).1 = StartOutcome.started ⟨1, 1, 1⟩
  ∧ (start_monitor guiIdle ⟨0, 1, 0⟩).2.workerAlive = true := by
  constructor
  · norm_num [start_monitor, guiIdle, effectiveConfig, max_def]
  · norm_num [start_monitor, guiIdle, startedState]

/-- C5 (amended): `start_monitor` never signals a configuration error for
non-positive duration or top-N: whenever no worker is alive it starts a run,
clamping the entry values to `duration = max 1 duration_var`,
`interval = max 0.1 interval_var`, `top_n = max 1 top_var`, all of which are
therefore positive when the loop begins. -/
theorem c5_clamped_start (s : GUIState) (v : GUIConfigVars)
    (hidle : s.workerAlive = false) :
    start_monitor s v
      = (StartOutcome.started (effectiveConfig v), startedState (effectiveConfig v))
  ∧ 1 ≤ (effectiveConfig v).duration
  ∧ (1 / 10 : ℚ) ≤ (effectiveConfig v).interval
  ∧ 1 ≤ (effectiveConfig v).top_n := by
  refine ⟨?_, le_max_left _ _, le_max_left _ _, le_max_left _ _⟩
  simp [start_monitor, hidle]

theorem c5_clamped_start_witness :
    guiIdle.workerAlive = false
  ∧ (start_monitor guiIdle ⟨0, 1, 0⟩
        = (StartOutcome.started (effectiveConfig ⟨0, 1, 0⟩),
           startedState (effectiveConfig ⟨0, 1, 0⟩))
     ∧ 1 ≤ (effectiveConfig ⟨0, 1, 0⟩).duration
     ∧ (1 / 10 : ℚ) ≤ (effectiveConfig ⟨0, 1, 0⟩).interval
     ∧ 1 ≤ (effectiveConfig ⟨0, 1, 0⟩).top_n) :=
  ⟨rfl, c5_clamped_start guiIdle ⟨0, 1, 0⟩ rfl⟩

/-- C7: `start_monitor` while a worker is alive signals "already in progress"
and returns the state entirely untouched (worker, stop flag, accumulated
totals, pending result and status line included). -/
theorem c7_start_while_running_rejected (s : GUIState) (v : GUIConfigVars)
    (halive : s.workerAlive = true) :
    start_monitor s v = (StartOutcome.alreadyInProgress, s) := by
  simp [start_monitor, halive]

theorem c7_start_while_running_rejected_witness :
    guiRunning.workerAlive = true
  ∧ start_monitor guiRunning ⟨30, 1, 15⟩ = (StartOutcome.alreadyInProgress, guiRunning) :=
  ⟨rfl, c7_start_while_running_rejected guiRunning ⟨30, 1, 15⟩ rfl⟩

def c9Tick : List ProcReading := [⟨1, "A", some ⟨100, 50⟩⟩]

def c9StopAt : ℕ → Bool := fun j => j == 1

/-- C9: stop is cooperative: when the stop event is not set at boundary `k`
but is set during tick `k` (so it reads true at boundary `k + 1`), the loop
still runs tick `k` to completion and exits exactly at the next boundary,
executing no further tick; `stop_monitor` with no live worker is a no-op, and
`stop_monitor` is idempotent on every state. -/
theorem c9_stop_cooperative (stopAt : ℕ → Bool) (times : ℕ → ℚ) (endT : ℚ) (k : ℕ)
    (t : List ProcReading) (rest : List (List ProcReading)) (s : WorkerState)
    (g g2 : GUIState) (htime : times k < endT) (hnow : stopAt k = false)
    (hnext : stopAt (k + 1) = true) (hidle : g.workerAlive = false) :
    runLoop stopAt times endT k (t :: rest) s = observeTick s t
  ∧ stop_monitor g = g
  ∧ stop_monitor (stop_monitor g2) = stop_monitor g2 := by
  refine ⟨?_, ?_, ?_⟩
  · rw [runLoop, if_pos ⟨htime, hnow⟩]
    cases rest with
    | nil => rfl
    | cons t2 r2 =>
      rw [runLoop, if_neg]
      intro hc
      rw [hnext] at hc
      exact absurd hc.2 (by simp)
  · simp [stop_monitor, hidle]
  · rcases g2 with ⟨a2, b2, c2, d2, e2, f2⟩
    cases a2
    · simp [stop_monitor]
    · simp [stop_monitor]

theorem c9_stop_cooperative_witness :
    ((0 : ℚ) < 1 ∧ c9StopAt 0 = false ∧ c9StopAt 1 = true ∧ guiIdle.workerAlive = false)
  ∧ (runLoop c9StopAt (fun _ => 0) 1 0 [c9Tick] initWorkerState
        = observeTick initWorkerState c9Tick
     ∧ stop_monitor guiIdle = guiIdle
     ∧ stop_monitor (stop_monitor guiRunning) = stop_monitor guiRunning) :=
  ⟨⟨by norm_num, rfl, rfl, rfl⟩,
   c9_stop_cooperative c9StopAt (fun _ => 0) 1 0 c9Tick [] initWorkerState guiIdle guiRunning
     (by norm_num) rfl rfl rfl⟩

def cfgTop1 : WorkerConfig := ⟨30, 1, 1⟩

def c10Ticks : List (List ProcReading) :=
  [[⟨1, "a", some ⟨0, 0⟩⟩, ⟨2, "b", some ⟨0, 0⟩⟩, ⟨3, "c", some ⟨0, 0⟩⟩],
   [⟨1, "a", some ⟨3145728, 0⟩⟩, ⟨2, "b", some ⟨2097152, 0⟩⟩, ⟨3, "c", some ⟨1048576, 0⟩⟩]]

/-- C10: the worker's delivered result never depends on the `top_n` captured
at start (changing it changes nothing) and is the complete, untruncated
totals mapping of the run; truncation happens only at display time with the
Top-N value read at that moment: displaying with value `tvNow` shows
`min tvNow (number of identities)` rows, and a run captured with
`top_n = 1` displays 3 rows when the field reads 3 at display time. -/
theorem c10_truncation_at_display (cfg : WorkerConfig) (m : ℤ) (startT : ℚ)
    (times : ℕ → ℚ) (stopAt : ℕ → Bool) (ticks : List (List ProcReading))
    (res : SampleResult) (tvNow : ℕ) :
    workerRun { cfg with top_n := m } startT times stopAt ticks
      = workerRun cfg startT times stopAt ticks
  ∧ workerRun cfg startT times stopAt ticks
      = (runLoop stopAt times (startT + (cfg.duration : ℚ)) 0 ticks initWorkerState).totals
  ∧ (displayedRows res tvNow).length = min tvNow res.length
  ∧ cfgTop1.top_n = 1
  ∧ (displayedRows (workerRun cfgTop1 0 (fun _ => 0) (fun _ => false) c10Ticks) 3).length = 3
    := by
  refine ⟨rfl, rfl, ?_, rfl, ?_⟩
  · rw [displayedRows, List.length_take, length_sortRowsDesc, List.length_map]
  · norm_num [displayedRows, sortRowsDesc, insertRowDesc, toRow, workerRun, runLoop,
      observeTick, processReading, alistLookup, alistInsert, workerResult, initWorkerState,
      c10Ticks, cfgTop1, max_def]

end DiskMonitor
